import Mathlib

/- Verification of the advanced-vector container (src/advanced-vector/vector.h):
   a raw storage manager (RawMemory) and a growable array (Vector) built on it.
   Storage slots are modelled as `Option` values: `some a` is a live, constructed
   element and `none` is raw (uninitialized) memory.  Undefined behaviour
   (out-of-bounds access, use of a raw slot as an object, an iterator range with
   the endpoints out of order) and exceptions thrown by element operations are
   modelled by the error type `CErr`.  Sizes and indices are `Nat`, with the
   `size_t` wrap-around made explicit where the source can underflow
   (`sizeTPred`). -/

set_option autoImplicit false

namespace AdvVec

variable {α : Type}

/-- Errors: `thrown` is a C++ exception raised by an element operation;
`ub` is undefined behaviour or a failed assertion. -/
inductive CErr : Type where
  | thrown : CErr
  | ub : CErr
deriving DecidableEq

/-- Result of a fallible computation. -/
abbrev Res (β : Type) : Type := Except CErr β

deriving instance DecidableEq for Except

/-- `size_ - 1` computed in `size_t`: wraps to `2 ^ 64 - 1` when `size_ = 0`
(for `0 < n < 2 ^ 64`, the only sizes realisable in the source, this is
`n - 1`). -/
def sizeTPred (n : Nat) : Nat := if n = 0 then 2 ^ 64 - 1 else n - 1

/-- RawMemory (vector.h lines 9-87): owns a block of `capacity_` element slots.
`buffer_` holds the slot contents; its length is the `capacity_` field (the two
are kept in sync by the source: the buffer is allocated with exactly
`capacity_` slots, and buffer and capacity are only ever transferred together).
A null `buffer_` corresponds to the empty list, since `Allocate(0)` returns
`nullptr` and `Allocate(n)` with `n > 0` a block of `n` slots. -/
structure RawMemory (α : Type) : Type where
  buffer_ : List (Option α)
deriving DecidableEq

/-- `Capacity()` (line 72). -/
def RawMemory.Capacity (m : RawMemory α) : Nat := m.buffer_.length

/-- `Allocate(n)` (lines 77-79): `n` raw slots; `nullptr` when `n = 0`. -/
def RawMemory.Allocate (n : Nat) : RawMemory α := ⟨List.replicate n none⟩

/-- Reading `buffer_[i]` as a live element (`operator[]`, lines 50-57, e.g. as
the source of a copy or move): UB if `i` is out of bounds (the assert at line
55) or if the slot does not hold a constructed element. -/
def RawMemory.get (m : RawMemory α) (i : Nat) : Res α :=
  match m.buffer_.getD i none with
  | some a => .ok a
  | none => .error .ub

/-- Placement-new of a value into slot `i` (`new (buf + i) T(...)`): `i` must
be in bounds; the slot's previous contents are overwritten. -/
def RawMemory.construct (m : RawMemory α) (i : Nat) (x : α) : Res (RawMemory α) :=
  if i < m.buffer_.length then .ok ⟨m.buffer_.set i (some x)⟩ else .error .ub

/-- Element assignment `buffer_[i] = x`: the target slot must hold a live
element (assigning into raw memory is UB). -/
def RawMemory.assign (m : RawMemory α) (i : Nat) (x : α) : Res (RawMemory α) :=
  match m.buffer_.getD i none with
  | some _ => .ok ⟨m.buffer_.set i (some x)⟩
  | none => .error .ub

/-- `std::destroy_at(buf + i)`: the slot must hold a live element; it becomes
raw memory again. -/
def RawMemory.destroyAt (m : RawMemory α) (i : Nat) : Res (RawMemory α) :=
  match m.buffer_.getD i none with
  | some _ => .ok ⟨m.buffer_.set i none⟩
  | none => .error .ub

/-- `GetAddress() != nullptr`: by `Allocate`, the handle is null exactly when
the capacity is `0`. -/
def RawMemory.hasHandle (m : RawMemory α) : Bool := m.Capacity != 0

/-- Move construction (lines 22-26): steal the buffer and capacity, null the
source.  Returns (constructed object, moved-from source). -/
def RawMemory.moveCtor (other : RawMemory α) : RawMemory α × RawMemory α :=
  (⟨other.buffer_⟩, ⟨[]⟩)

/-- Move assignment (lines 28-34): `std::swap(buffer_, other.buffer_)` and
`std::swap(capacity_, other.capacity_)` — an exchange, not a transfer-and-null.
The two arguments model two distinct objects (the `this != &other` guard only
matters for self-assignment).  Returns (target after, source after). -/
def RawMemory.moveAssign (t other : RawMemory α) : RawMemory α × RawMemory α :=
  (⟨other.buffer_⟩, ⟨t.buffer_⟩)

/-- Canonical storage block: `xs` live elements followed by `k` raw slots. -/
def cslots (xs : List α) (k : Nat) : List (Option α) :=
  xs.map some ++ List.replicate k none

/-- Vector (vector.h lines 89-310). -/
structure Vector (α : Type) : Type where
  data_ : RawMemory α
  size_ : Nat
deriving DecidableEq

/-- `Size()` (lines 154-156). -/
def Vector.Size (v : Vector α) : Nat := v.size_

/-- `Capacity()` (lines 158-160). -/
def Vector.Capacity (v : Vector α) : Nat := v.data_.Capacity

/-- Canonical well-formed vector state: elements `xs` in slots `[0, xs.length)`
followed by `k` raw slots.  Every state reachable by the container's own
operations has this shape. -/
def mkVec (xs : List α) (k : Nat) : Vector α := ⟨⟨cslots xs k⟩, xs.length⟩

/-- `std::uninitialized_copy_n` / `std::uninitialized_move_n` of `n` elements
from `src` (starting at `srcOff`) into raw slots of `dst` (starting at
`dstOff`).  `c` models the element copy (or move) constructor, which may
throw; at the level of values a move and a copy agree. -/
def uninitializedCopyN (c : α → Res α) (src : RawMemory α) (srcOff : Nat)
    (dst : RawMemory α) (dstOff : Nat) : Nat → Res (RawMemory α)
  | 0 => .ok dst
  | n + 1 => do
    let a ← src.get srcOff
    let a ← c a
    let dst ← dst.construct dstOff a
    uninitializedCopyN c src (srcOff + 1) dst (dstOff + 1) n

/-- `std::uninitialized_value_construct_n(buf + off, n)`: value-construct `n`
elements; for the element types considered the constructed value is `default`
(`0` for the integers used in the spec's scenarios). -/
def uninitializedValueConstructN [Inhabited α] (m : RawMemory α) (off : Nat) :
    Nat → Res (RawMemory α)
  | 0 => .ok m
  | n + 1 => do
    let m ← m.construct off (default : α)
    uninitializedValueConstructN m (off + 1) n

/-- `std::destroy_n(buf + off, n)`. -/
def destroyN (m : RawMemory α) (off : Nat) : Nat → Res (RawMemory α)
  | 0 => .ok m
  | n + 1 => do
    let m ← m.destroyAt off
    destroyN m (off + 1) n

/-- The element-wise loop `for i: data_[i] = rhs.data_[i]` used by copy
assignment (lines 138-140); `c` models the element copy assignment's reading
side, which may throw. -/
def assignFromN (c : α → Res α) (src dst : RawMemory α) (i : Nat) :
    Nat → Res (RawMemory α)
  | 0 => .ok dst
  | n + 1 => do
    let a ← src.get i
    let a ← c a
    let dst ← dst.assign i a
    assignFromN c src dst (i + 1) n

/-- The loop of `std::move(first, last, d_first)` once the count is known:
element-wise move assignment, left to right. -/
def moveN (m : RawMemory α) (first dfirst : Nat) : Nat → Res (RawMemory α)
  | 0 => .ok m
  | n + 1 => do
    let a ← m.get first
    let m ← m.assign dfirst a
    moveN m (first + 1) (dfirst + 1) n

/-- `std::move(first, last, d_first)` on pointer iterators; a range with
`last < first` is UB. -/
def moveRange (m : RawMemory α) (first last dfirst : Nat) : Res (RawMemory α) :=
  if last < first then .error .ub else moveN m first dfirst (last - first)

/-- The loop of `std::move_backward(first, last, d_last)`: right to left. -/
def moveBackwardN (m : RawMemory α) (last dlast : Nat) : Nat → Res (RawMemory α)
  | 0 => .ok m
  | n + 1 => do
    let a ← m.get (last - 1)
    let m ← m.assign (dlast - 1) a
    moveBackwardN m (last - 1) (dlast - 1) n

/-- `std::move_backward(first, last, d_last)`; a range with `last < first`
is UB. -/
def moveBackwardRange (m : RawMemory α) (first last dlast : Nat) :
    Res (RawMemory α) :=
  if last < first then .error .ub else moveBackwardN m last dlast (last - first)

/-- `Vector::CopyOrMove(from, n, to)` (lines 301-308): move- or copy-construct
`n` elements from `src + srcOff` into raw slots at `dst + dstOff` (the same
values either way), then `std::destroy_n` the originals. -/
def CopyOrMove (src : RawMemory α) (srcOff n : Nat) (dst : RawMemory α)
    (dstOff : Nat) : Res (RawMemory α × RawMemory α) := do
  let dst ← uninitializedCopyN (fun a => .ok a) src srcOff dst dstOff n
  let src ← destroyN src srcOff n
  .ok (src, dst)

/-- State-plus-exception monad used where a claim observes the container's
state at the moment an exception escapes: the state is returned alongside the
error, and a later bind does not run. -/
def EM (σ β : Type) : Type := σ → σ × Res β

instance EMMonad {σ : Type} : Monad (EM σ) where
  pure a := fun s => (s, .ok a)
  bind m f := fun s =>
    match m s with
    | (s', .ok a) => f a s'
    | (s', .error e) => (s', .error e)

/-- Read the current state (`*this`). -/
def getS {σ : Type} : EM σ σ := fun s => (s, .ok s)

/-- Overwrite the current state (`*this`). -/
def setS {σ : Type} (s' : σ) : EM σ Unit := fun _ => (s', .ok ())

/-- Run a stateless fallible computation inside `EM`. -/
def liftR {σ β : Type} (r : Res β) : EM σ β := fun s => (s, r)

/-- Sized constructor `Vector(size_t)` (lines 98-103): allocate exactly `size`
slots, then value-construct `size` elements in place. -/
def Vector.sizedCtor [Inhabited α] (size : Nat) : Res (Vector α) := do
  let d : RawMemory α := RawMemory.Allocate size
  let d ← uninitializedValueConstructN d 0 size
  .ok ⟨d, size⟩

/-- Copy constructor (lines 105-110): capacity exactly `other.size_`, then
`std::uninitialized_copy_n` of the elements; `c` models the element copy
constructor (it may throw). -/
def Vector.copyCtor (c : α → Res α) (other : Vector α) : Res (Vector α) := do
  let d : RawMemory α := RawMemory.Allocate other.size_
  let d ← uninitializedCopyN c other.data_ 0 d 0 other.size_
  .ok ⟨d, other.size_⟩

/-- Move constructor (lines 113-115): `data_(std::move(other.data_))` — the
RawMemory move constructor nulls the source's storage — then take the size and
zero the source's size.  Returns (constructed vector, moved-from source). -/
def Vector.moveCtor (other : Vector α) : Vector α × Vector α :=
  let p := RawMemory.moveCtor other.data_
  (⟨p.1, other.size_⟩, ⟨p.2, 0⟩)

/-- Move assignment `operator=(Vector&&)` (lines 117-124):
`data_ = std::move(rhs.data_)` is the RawMemory move assignment, i.e. a swap of
the raw buffers; then `size_ = rhs.size_; rhs.size_ = 0;`.  The target's former
elements are not destroyed by this: they sit in the buffer now held by the
source, beyond its (zeroed) size.  Returns (target after, source after). -/
def Vector.moveAssignOp (t rhs : Vector α) : Vector α × Vector α :=
  let p := RawMemory.moveAssign t.data_ rhs.data_
  (⟨p.1, rhs.size_⟩, ⟨p.2, 0⟩)

/-- Destructor (lines 231-233): `std::destroy_n(data_.GetAddress(), size_)`;
the raw block is then freed by RawMemory without destroying any further
slots. -/
def Vector.destructor (v : Vector α) : Res (RawMemory α) :=
  destroyN v.data_ 0 v.size_

/-- Copy assignment `operator=(const Vector&)` (lines 126-152), written in `EM`
over the target's state so that the state at an escaping exception is
observable.  `c` models the element copy constructor / copy assignment.  The
two arguments model distinct objects (the `this != &rhs` guard only matters for
self-assignment). -/
def Vector.copyAssign (c : α → Res α) (rhs : Vector α) : EM (Vector α) Unit := do
  let v ← getS
  if rhs.size_ > v.data_.Capacity then
    let tmp ← liftR (Vector.copyCtor c rhs)    -- Vector rhs_copy(rhs);
    setS tmp                                   -- Swap(rhs_copy);
  else
    let d ← liftR (if rhs.size_ < v.size_ then
        destroyN v.data_ rhs.size_ (v.size_ - rhs.size_)   -- destroy excess
      else .ok v.data_)
    setS ⟨d, v.size_⟩
    let d ← liftR (assignFromN c rhs.data_ d 0 (min v.size_ rhs.size_))
    setS ⟨d, v.size_⟩
    let d ← liftR (if v.size_ < rhs.size_ then
        uninitializedCopyN c rhs.data_ v.size_ d v.size_ (rhs.size_ - v.size_)
      else .ok d)
    setS ⟨d, rhs.size_⟩                        -- size_ = rhs.size_;

/-- `Reserve` (lines 206-215): no-op when `new_capacity` does not exceed the
capacity; otherwise allocate exactly `new_capacity` slots and relocate. -/
def Vector.Reserve (v : Vector α) (new_capacity : Nat) : Res (Vector α) :=
  if new_capacity ≤ v.data_.Capacity then .ok v
  else do
    let nd : RawMemory α := RawMemory.Allocate new_capacity
    let p ← CopyOrMove v.data_ 0 v.size_ nd 0
    .ok ⟨p.2, v.size_⟩                         -- data_.Swap(new_data);

/-- `Resize` (lines 162-173). -/
def Vector.Resize [Inhabited α] (v : Vector α) (new_size : Nat) :
    Res (Vector α) :=
  if v.size_ = new_size then .ok v
  else if v.size_ < new_size then do
    let v ← v.Reserve new_size
    let d ← uninitializedValueConstructN v.data_ v.size_ (new_size - v.size_)
    .ok ⟨d, new_size⟩
  else do
    let d ← destroyN v.data_ new_size (v.size_ - new_size)
    .ok ⟨d, new_size⟩

/-- `EmplaceBack` (lines 186-198), in `EM`: `ctor` is the construction of the
new element from the forwarded arguments (it may throw).  In the growth branch
the new element is constructed into the new block before any existing element
is relocated, and `data_`/`size_` are only updated afterwards. -/
def Vector.EmplaceBack (ctor : Res α) : EM (Vector α) α := do
  let v ← getS
  if v.size_ = v.data_.Capacity then
    let nd : RawMemory α := RawMemory.Allocate (if v.size_ = 0 then 1 else v.size_ * 2)
    let x ← liftR ctor                               -- new (new_data + size_) T(args...)
    let nd ← liftR (nd.construct v.size_ x)
    let p ← liftR (CopyOrMove v.data_ 0 v.size_ nd 0)
    setS ⟨p.2, v.size_ + 1⟩                          -- data_.Swap(new_data); ++size_;
    let w ← getS
    liftR (w.data_.get (sizeTPred w.size_))          -- return data_[size_ - 1];
  else
    let x ← liftR ctor                               -- new (data_ + size_) T(args...)
    let d ← liftR (v.data_.construct v.size_ x)
    setS ⟨d, v.size_ + 1⟩                            -- ++size_;
    let w ← getS
    liftR (w.data_.get (sizeTPred w.size_))          -- return data_[size_ - 1];

/-- `PushBack` (lines 176-183) with a non-throwing element construction: the
resulting state. -/
def Vector.PushBack (v : Vector α) (x : α) : Vector α :=
  (Vector.EmplaceBack (.ok x) v).1

/-- `Relocate` (lines 288-298): the growth path of `Emplace` — allocate
`max(1, size*2)` slots, construct the new element at its final index, relocate
the elements before `pos` into the prefix and those from `pos` on after it. -/
def Vector.Relocate (v : Vector α) (pos : Nat) (x : α) : Res (Vector α) := do
  let index := pos                                    -- pos - begin()
  let nd : RawMemory α := RawMemory.Allocate (if v.size_ = 0 then 1 else v.size_ * 2)
  let nd ← nd.construct index x                       -- new (new_data + index) T(args...)
  let p ← CopyOrMove v.data_ 0 index nd 0
  let q ← CopyOrMove p.1 index (v.size_ - index) p.2 (index + 1)
  .ok ⟨q.2, v.size_ + 1⟩                              -- data_.Swap(new_data); ++size_;

/-- `Emplace` (lines 255-267).  `pos` is the iterator as an index
(`pos - begin()`).  In the source the growth branch reads
`return Relocate(pos, std::forward(args)...);` where `std::forward` is missing
its template argument list, which makes every instantiation of `Emplace`
ill-formed C++; the branch is modelled as `Relocate` applied to the
construction it names. -/
def Vector.Emplace (v : Vector α) (pos : Nat) (x : α) : Res (Vector α) :=
  if v.size_ = v.data_.Capacity then
    v.Relocate pos x
  else
    let index := pos
    do
      let lastv ← v.data_.get (sizeTPred v.size_) -- new (end()) T(std::move(data_[size_ - 1]));
      let d ← v.data_.construct v.size_ lastv
      let d ← moveBackwardRange d index (v.size_ - 1) v.size_
        -- std::move_backward(begin() + index, end() - 1, end());
      let d ← d.assign index x                    -- data_[index] = T(args...);
      .ok ⟨d, v.size_ + 1⟩                        -- ++size_;

/-- `Erase` (lines 269-275). -/
def Vector.Erase (v : Vector α) (pos : Nat) : Res (Vector α) := do
  let index := pos
  let d ← moveRange v.data_ (index + 1) v.size_ index
    -- std::move(begin() + index + 1, end(), begin() + index);
  let d ← d.destroyAt (sizeTPred v.size_)         -- data_[size_ - 1].~T();
  .ok ⟨d, v.size_ - 1⟩                            -- --size_;

/-- Model of passing an object to a callee as an lvalue: the callee copies
from it and the caller's object is intact afterwards (`some x`); passing it
with `std::move` would instead surrender it.  Both `Insert` overloads
(lines 277-282) call `Emplace(pos, value)` with `value` as an lvalue. -/
def passAsLValue (x : α) : α × Option α := (x, some x)

/-- `Insert(pos, const T& value)` (lines 277-279): `Emplace(pos, value)`.
Returns the call's result together with the state of the caller's argument
object after the call. -/
def Vector.InsertLval (v : Vector α) (pos : Nat) (value : α) :
    Res (Vector α) × Option α :=
  let p := passAsLValue value
  (v.Emplace pos p.1, p.2)

/-- `Insert(pos, T&& value)` (lines 280-282): the body is `Emplace(pos, value)`
— `value` is a named rvalue reference and hence an lvalue, so the argument is
passed exactly as in the const-reference overload: the element is
copy-constructed from it and it is not moved from. -/
def Vector.InsertRval (v : Vector α) (pos : Nat) (value : α) :
    Res (Vector α) × Option α :=
  let p := passAsLValue value
  (v.Emplace pos p.1, p.2)

/-- The spec's scenario for C4: push `1, 2, …, k` one at a time onto a
default-constructed (empty, capacity `0`) vector of integers. -/
def pushSeq : Nat → Vector ℕ
  | 0 => ⟨⟨[]⟩, 0⟩
  | k + 1 => (pushSeq k).PushBack (k + 1)

/- Helper lemmas about slot lists (live prefix `ws.map some` before a tail
`B`, raw segments `List.replicate k none`). -/

theorem getD_live (ws : List α) (B : List (Option α)) (i : Nat)
    (h : i < ws.length) : (ws.map some ++ B).getD i none = some ws[i] := by
  induction ws generalizing i with
  | nil => simp at h
  | cons a ws ih =>
    cases i with
    | zero => simp
    | succ j => simpa using ih j (by simpa using h)

theorem getD_replicate_none (k i : Nat) :
    (List.replicate k (none : Option α)).getD i none = none := by
  induction k generalizing i with
  | zero => simp
  | succ k ih =>
    cases i with
    | zero => simp [List.replicate_succ]
    | succ j => rw [List.replicate_succ, List.getD_cons_succ]; exact ih j

theorem getD_raw (ws : List α) (k i : Nat) (h : ws.length ≤ i) :
    (cslots ws k).getD i none = none := by
  induction ws generalizing i with
  | nil => rw [show cslots ([] : List α) k = List.replicate k none from rfl]; exact getD_replicate_none k i
  | cons a ws ih =>
    cases i with
    | zero => simp at h
    | succ j => simpa [cslots] using ih j (by simpa using h)

theorem set_append_len (A : List (Option α)) (co : Option α)
    (B : List (Option α)) (v : Option α) :
    (A ++ co :: B).set A.length v = A ++ v :: B := by
  induction A with
  | nil => simp
  | cons a A ih => simp [ih]

theorem getD_append_len (A : List (Option α)) (co : Option α)
    (B : List (Option α)) (d : Option α) :
    (A ++ co :: B).getD A.length d = co := by
  induction A with
  | nil => simp
  | cons a A ih => simpa using ih

theorem set_map_prefix (ws : List α) (B : List (Option α)) (i : Nat) (x : α)
    (h : i < ws.length) :
    (ws.map some ++ B).set i (some x) = (ws.set i x).map some ++ B := by
  induction ws generalizing i with
  | nil => simp at h
  | cons a ws ih =>
    cases i with
    | zero => simp
    | succ j => simpa using ih j (by simpa using h)

theorem take_set_eq (ws : List α) (i : Nat) (a : α) (h : i < ws.length) :
    (ws.set i a).take (i + 1) = ws.take i ++ [a] := by
  induction ws generalizing i with
  | nil => simp at h
  | cons b ws ih =>
    cases i with
    | zero => simp
    | succ j => simpa using ih j (by simpa using h)

/- The slot primitives evaluated on canonical states. -/

theorem get_live (ws : List α) (B : List (Option α)) (i : Nat)
    (h : i < ws.length) :
    RawMemory.get ⟨ws.map some ++ B⟩ i = .ok ws[i] := by
  unfold RawMemory.get
  rw [getD_live ws B i h]

theorem get_raw (ws : List α) (k i : Nat) (h : ws.length ≤ i) :
    RawMemory.get ⟨cslots ws k⟩ i = .error .ub := by
  unfold RawMemory.get
  rw [getD_raw ws k i h]

theorem construct_at (A : List (Option α)) (co : Option α)
    (B : List (Option α)) (x : α) :
    RawMemory.construct ⟨A ++ co :: B⟩ A.length x = .ok ⟨A ++ some x :: B⟩ := by
  have h : A.length < (A ++ co :: B).length := by simp
  unfold RawMemory.construct
  rw [if_pos h, set_append_len]

theorem assign_live (ws : List α) (B : List (Option α)) (i : Nat) (x : α)
    (h : i < ws.length) :
    RawMemory.assign ⟨ws.map some ++ B⟩ i x = .ok ⟨(ws.set i x).map some ++ B⟩ := by
  unfold RawMemory.assign
  rw [getD_live ws B i h, set_map_prefix ws B i x h]

theorem destroyAt_at (A : List (Option α)) (a : α) (B : List (Option α)) :
    RawMemory.destroyAt ⟨A ++ some a :: B⟩ A.length = .ok ⟨A ++ none :: B⟩ := by
  unfold RawMemory.destroyAt
  rw [getD_append_len, set_append_len]

/- Unfolding lemmas for `Res` and `EM` binds. -/

theorem res_bind_ok {β γ : Type} (a : β) (f : β → Res γ) :
    (Except.ok a >>= f : Res γ) = f a := rfl

theorem res_bind_err {β γ : Type} (e : CErr) (f : β → Res γ) :
    (Except.error e >>= f : Res γ) = .error e := rfl

theorem EM_bind_getS {σ γ : Type} (f : σ → EM σ γ) (s : σ) :
    (getS >>= f) s = f s s := rfl

theorem EM_bind_setS {σ γ : Type} (s' : σ) (f : Unit → EM σ γ) (s : σ) :
    (setS s' >>= f) s = f () s' := rfl

theorem EM_bind_liftR_ok {σ β γ : Type} (a : β) (f : β → EM σ γ) (s : σ) :
    (liftR (.ok a) >>= f) s = f a s := rfl

theorem EM_bind_liftR_err {σ β γ : Type} (e : CErr) (f : β → EM σ γ) (s : σ) :
    (liftR (.error e) >>= f) s = (s, .error e) := rfl

theorem liftR_apply {σ β : Type} (r : Res β) (s : σ) : liftR r s = (s, r) := rfl

theorem setS_apply {σ : Type} (s' s : σ) : setS s' s = (s', .ok ()) := rfl

/- The range algorithms evaluated on canonical states. -/

theorem uninitializedCopyN_ok (c : α → Res α) (hc : ∀ a, c a = .ok a)
    (n : Nat) : ∀ (srcOff : Nat) (xs : List α) (kB A B : List (Option α)),
    srcOff + n ≤ xs.length →
    uninitializedCopyN c ⟨xs.map some ++ kB⟩ srcOff
        ⟨A ++ List.replicate n none ++ B⟩ A.length n
      = .ok ⟨A ++ ((xs.drop srcOff).take n).map some ++ B⟩ := by
  induction n with
  | zero => intro srcOff xs kB A B h; simp [uninitializedCopyN]
  | succ n ih =>
    intro srcOff xs kB A B h
    have hs : srcOff < xs.length := by omega
    have hdst : (⟨A ++ List.replicate (n + 1) none ++ B⟩ : RawMemory α)
        = ⟨A ++ none :: (List.replicate n none ++ B)⟩ := by
      simp [List.replicate_succ]
    rw [hdst]
    unfold uninitializedCopyN
    rw [get_live xs kB srcOff hs, res_bind_ok, hc, res_bind_ok,
      construct_at A none (List.replicate n none ++ B) xs[srcOff], res_bind_ok]
    have hA : (⟨A ++ some xs[srcOff] :: (List.replicate n none ++ B)⟩ : RawMemory α)
        = ⟨(A ++ [some xs[srcOff]]) ++ List.replicate n none ++ B⟩ := by simp
    have hlen : A.length + 1 = (A ++ [some xs[srcOff]]).length := by simp
    rw [hA, hlen, ih (srcOff + 1) xs kB (A ++ [some xs[srcOff]]) B (by omega)]
    congr 2
    have hsm : srcOff < (List.map some xs).length := by simpa using hs
    simp only [List.map_take, List.map_drop, List.append_assoc, List.singleton_append]
    rw [List.drop_eq_getElem_cons hsm]
    simp

theorem uninitializedValueConstructN_ok [Inhabited α] (n : Nat) :
    ∀ (A B : List (Option α)),
    uninitializedValueConstructN
        (⟨A ++ List.replicate n none ++ B⟩ : RawMemory α) A.length n
      = .ok ⟨A ++ (List.replicate n (default : α)).map some ++ B⟩ := by
  induction n with
  | zero => intro A B; simp [uninitializedValueConstructN]
  | succ n ih =>
    intro A B
    have hdst : (⟨A ++ List.replicate (n + 1) none ++ B⟩ : RawMemory α)
        = ⟨A ++ none :: (List.replicate n none ++ B)⟩ := by
      simp [List.replicate_succ]
    rw [hdst]
    unfold uninitializedValueConstructN
    rw [construct_at A none (List.replicate n none ++ B) (default : α), res_bind_ok]
    have hA : (⟨A ++ some (default : α) :: (List.replicate n none ++ B)⟩ : RawMemory α)
        = ⟨(A ++ [some (default : α)]) ++ List.replicate n none ++ B⟩ := by simp
    have hlen : A.length + 1 = (A ++ [some (default : α)]).length := by simp
    rw [hA, hlen, ih (A ++ [some (default : α)]) B]
    congr 2
    simp [List.replicate_succ]

theorem destroyN_ok (n : Nat) : ∀ (ws : List α) (A B : List (Option α)),
    ws.length = n →
    destroyN ⟨A ++ ws.map some ++ B⟩ A.length n
      = .ok ⟨A ++ List.replicate n none ++ B⟩ := by
  induction n with
  | zero =>
    intro ws A B h
    rw [List.eq_nil_of_length_eq_zero h]
    simp [destroyN]
  | succ n ih =>
    intro ws A B h
    cases ws with
    | nil => simp at h
    | cons w ws =>
      unfold destroyN
      have h1 : (⟨A ++ (w :: ws).map some ++ B⟩ : RawMemory α)
          = ⟨A ++ some w :: (ws.map some ++ B)⟩ := by simp
      rw [h1, destroyAt_at A w (ws.map some ++ B), res_bind_ok]
      have h2 : (⟨A ++ none :: (ws.map some ++ B)⟩ : RawMemory α)
          = ⟨(A ++ [none]) ++ ws.map some ++ B⟩ := by simp
      have h3 : A.length + 1 = (A ++ [(none : Option α)]).length := by simp
      rw [h2, h3, ih ws (A ++ [none]) B (by simpa using h)]
      congr 2
      simp [List.replicate_succ]

theorem assignFromN_ok (c : α → Res α) (hc : ∀ a, c a = .ok a) (n : Nat) :
    ∀ (i : Nat) (xs ws : List α) (kB B : List (Option α)),
    i + n ≤ xs.length → i + n ≤ ws.length →
    assignFromN c ⟨xs.map some ++ kB⟩ ⟨ws.map some ++ B⟩ i n
      = .ok ⟨(ws.take i ++ (xs.drop i).take n ++ ws.drop (i + n)).map some ++ B⟩ := by
  induction n with
  | zero =>
    intro i xs ws kB B h1 h2
    simp [assignFromN]
  | succ n ih =>
    intro i xs ws kB B h1 h2
    have hxi : i < xs.length := by omega
    have hwi : i < ws.length := by omega
    unfold assignFromN
    rw [get_live xs kB i hxi, res_bind_ok, hc, res_bind_ok,
      assign_live ws B i xs[i] hwi, res_bind_ok]
    rw [ih (i + 1) xs (ws.set i xs[i]) kB B (by omega) (by simp; omega)]
    congr 2
    have hd : (ws.set i xs[i]).drop (i + 1 + n) = ws.drop (i + 1 + n) :=
      List.drop_set_of_lt _ _ (by omega)
    have he : i + (n + 1) = i + 1 + n := by omega
    have hxm : i < (List.map some xs).length := by simpa using hxi
    rw [take_set_eq ws i xs[i] hwi, hd, he]
    simp only [List.map_take, List.map_drop, List.map_append, List.append_assoc,
      List.singleton_append]
    rw [List.drop_eq_getElem_cons hxm]
    simp

theorem moveN_shift (n : Nat) : ∀ (i : Nat) (ws : List α) (B : List (Option α)),
    i + 1 + n ≤ ws.length →
    moveN ⟨ws.map some ++ B⟩ (i + 1) i n
      = .ok ⟨(ws.take i ++ (ws.drop (i + 1)).take n ++ ws.drop (i + n)).map some ++ B⟩ := by
  induction n with
  | zero =>
    intro i ws B h
    simp [moveN]
  | succ n ih =>
    intro i ws B h
    have h1 : i + 1 < ws.length := by omega
    unfold moveN
    rw [get_live ws B (i + 1) h1, res_bind_ok,
      assign_live ws B i ws[i + 1] (by omega), res_bind_ok]
    rw [ih (i + 1) (ws.set i ws[i + 1]) B (by simp; omega)]
    congr 2
    have hd2 : (ws.set i ws[i + 1]).drop (i + 1 + 1) = ws.drop (i + 1 + 1) :=
      List.drop_set_of_lt _ _ (by omega)
    have hd3 : (ws.set i ws[i + 1]).drop (i + 1 + n) = ws.drop (i + 1 + n) :=
      List.drop_set_of_lt _ _ (by omega)
    have he : i + (n + 1) = i + 1 + n := by omega
    have h1m : i + 1 < (List.map some ws).length := by simpa using h1
    rw [take_set_eq ws i ws[i + 1] (by omega), hd2, hd3, he]
    simp only [List.map_take, List.map_drop, List.map_append, List.append_assoc,
      List.singleton_append]
    rw [List.drop_eq_getElem_cons h1m]
    simp

/- Vector-level evaluation lemmas on canonical states. -/

theorem CopyOrMove_full (xs : List α) (kB B : List (Option α)) (src dst : RawMemory α)
    (hsrc : src.buffer_ = xs.map some ++ kB)
    (hdst : dst.buffer_ = List.replicate xs.length none ++ B) :
    CopyOrMove src 0 xs.length dst 0
      = .ok (⟨List.replicate xs.length none ++ kB⟩, ⟨xs.map some ++ B⟩) := by
  obtain ⟨sb⟩ := src
  obtain ⟨db⟩ := dst
  simp only at hsrc hdst
  subst hsrc hdst
  unfold CopyOrMove
  have h1 := uninitializedCopyN_ok (fun a => .ok a) (fun a => rfl) xs.length 0 xs kB [] B (by simp)
  simp only [List.nil_append, List.length_nil, List.drop_zero, List.take_length] at h1
  rw [h1, res_bind_ok]
  have h2 := destroyN_ok xs.length xs [] kB rfl
  simp only [List.nil_append, List.length_nil] at h2
  rw [h2, res_bind_ok]

theorem EmplaceBack_grow (xs : List α) (x : α) (m : Nat)
    (hNm : (if xs.length = 0 then 1 else xs.length * 2) = xs.length + (1 + m)) :
    Vector.EmplaceBack (.ok x) (mkVec xs 0) = (mkVec (xs ++ [x]) m, .ok x) := by
  have hcond : (mkVec xs 0).size_ = (mkVec xs 0).data_.Capacity := by
    simp [mkVec, cslots, RawMemory.Capacity]
  unfold Vector.EmplaceBack
  rw [EM_bind_getS, if_pos hcond, EM_bind_liftR_ok]
  simp only [show (mkVec xs 0).size_ = xs.length from rfl]
  rw [hNm]
  have hAlloc : (RawMemory.Allocate (xs.length + (1 + m)) : RawMemory α)
      = ⟨List.replicate xs.length none ++ none :: List.replicate m none⟩ := by
    rw [RawMemory.Allocate, List.replicate_add,
      show 1 + m = m + 1 from Nat.add_comm 1 m, List.replicate_succ]
  rw [hAlloc]
  have hc := construct_at (List.replicate xs.length (none : Option α)) none
    (List.replicate m none) x
  rw [List.length_replicate] at hc
  rw [hc, EM_bind_liftR_ok]
  have hcm := CopyOrMove_full xs ([] : List (Option α)) (some x :: List.replicate m none)
    (mkVec xs 0).data_ ⟨List.replicate xs.length none ++ some x :: List.replicate m none⟩
    (by simp [mkVec, cslots]) rfl
  rw [hcm, EM_bind_liftR_ok, EM_bind_setS, EM_bind_getS, liftR_apply]
  have hget : RawMemory.get (⟨xs.map some ++ some x :: List.replicate m none⟩ : RawMemory α)
      (sizeTPred (xs.length + 1)) = .ok x := by
    have h1 : (xs.map some ++ some x :: List.replicate m none)
        = (xs ++ [x]).map some ++ List.replicate m none := by simp
    rw [h1, show sizeTPred (xs.length + 1) = xs.length by simp [sizeTPred]]
    have h2 := get_live (xs ++ [x]) (List.replicate m none) xs.length (by simp)
    rw [h2, List.getElem_concat_length]
    rfl
  rw [Prod.mk.injEq]
  exact ⟨by simp [mkVec, cslots], hget⟩

theorem EmplaceBack_spare (xs : List α) (r : Nat) (x : α) :
    Vector.EmplaceBack (.ok x) (mkVec xs (r + 1)) = (mkVec (xs ++ [x]) r, .ok x) := by
  have hcond : ¬ ((mkVec xs (r + 1)).size_ = (mkVec xs (r + 1)).data_.Capacity) := by
    simp [mkVec, cslots, RawMemory.Capacity]
  unfold Vector.EmplaceBack
  rw [EM_bind_getS, if_neg hcond, EM_bind_liftR_ok]
  have hc : (mkVec xs (r + 1)).data_.construct (mkVec xs (r + 1)).size_ x
      = .ok ⟨(xs ++ [x]).map some ++ List.replicate r none⟩ := by
    have hca := construct_at (xs.map some) none (List.replicate r none) x
    rw [List.length_map] at hca
    rw [show ((xs ++ [x]).map some ++ List.replicate r none : List (Option α))
        = xs.map some ++ some x :: List.replicate r none by simp]
    exact hca
  rw [hc, EM_bind_liftR_ok, EM_bind_setS, EM_bind_getS, liftR_apply]
  have hget : RawMemory.get (⟨(xs ++ [x]).map some ++ List.replicate r none⟩ : RawMemory α)
      (sizeTPred (xs.length + 1)) = .ok x := by
    have h2 := get_live (xs ++ [x]) (List.replicate r none) xs.length (by simp)
    rw [show sizeTPred (xs.length + 1) = xs.length by simp [sizeTPred]]
    rw [h2, List.getElem_concat_length]
    rfl
  rw [Prod.mk.injEq]
  exact ⟨by simp [mkVec, cslots], hget⟩

/-- One `PushBack`/`EmplaceBack` (with a non-throwing construction) on a
canonical state: the element lands at the back; a full vector grows to
`max(1, size*2)` slots, otherwise one spare slot is consumed. -/
theorem EmplaceBack_push (xs : List α) (k : Nat) (x : α) :
    Vector.EmplaceBack (.ok x) (mkVec xs k)
      = (mkVec (xs ++ [x])
          (if k = 0 then (if xs.length = 0 then 1 else xs.length * 2) - (xs.length + 1)
           else k - 1),
         .ok x) := by
  cases k with
  | zero =>
    have hNm : (if xs.length = 0 then 1 else xs.length * 2)
        = xs.length + (1 + ((if xs.length = 0 then 1 else xs.length * 2) - (xs.length + 1))) := by
      by_cases h0 : xs.length = 0
      · simp [h0]
      · simp only [h0, if_false]
        omega
    simpa using EmplaceBack_grow xs x _ hNm
  | succ r => simpa using EmplaceBack_spare xs r x


theorem Size_mkVec (xs : List α) (k : Nat) : (mkVec xs k).Size = xs.length := rfl

theorem Capacity_mkVec (xs : List α) (k : Nat) : (mkVec xs k).Capacity = xs.length + k := by
  simp [mkVec, cslots, Vector.Capacity, RawMemory.Capacity]

theorem PushBack_mkVec_full (xs : List α) (x : α) :
    (mkVec xs 0).PushBack x
      = mkVec (xs ++ [x]) ((if xs.length = 0 then 1 else xs.length * 2) - (xs.length + 1)) := by
  have h := congrArg Prod.fst (EmplaceBack_push xs 0 x)
  simpa [Vector.PushBack] using h

theorem PushBack_mkVec_spare (xs : List α) (r : Nat) (x : α) :
    (mkVec xs (r + 1)).PushBack x = mkVec (xs ++ [x]) r := by
  have h := congrArg Prod.fst (EmplaceBack_push xs (r + 1) x)
  simpa [Vector.PushBack] using h

/-- Claim C3: for every vector whose size equals its capacity, if the element
constructor invoked by a growth-triggering PushBack/EmplaceBack throws, the
vector afterwards has the same size, capacity, and elements as before the call
(strong guarantee: the new element is constructed into the new storage before
any existing element is relocated, and the vector is not touched before
that). -/
theorem c3_emplaceBack_growth_ctor_throw_strong (v : Vector α) (e : CErr)
    (h : v.size_ = v.data_.Capacity) :
    Vector.EmplaceBack (Except.error e : Res α) v = (v, Except.error e) := by
  unfold Vector.EmplaceBack
  rw [EM_bind_getS, if_pos h]
  simp only [EM_bind_liftR_err]

theorem pushSeq_shape (k : Nat) : ∃ xs : List ℕ, ∃ e : Nat,
    pushSeq k = mkVec xs e ∧ xs.length = k ∧ (k = 0 → e = 0)
    ∧ (1 ≤ k → ∃ j : Nat, xs.length + e = 2 ^ j) := by
  induction k with
  | zero =>
    exact ⟨[], 0, rfl, rfl, fun _ => rfl, fun h => absurd h (by simp)⟩
  | succ k ih =>
    obtain ⟨xs, e, hpk, hlen, hz, hpow⟩ := ih
    cases e with
    | zero =>
      refine ⟨xs ++ [k + 1], (if xs.length = 0 then 1 else xs.length * 2) - (xs.length + 1),
        ?_, by simp [hlen], by simp, ?_⟩
      · rw [show pushSeq (k + 1) = (pushSeq k).PushBack (k + 1) from rfl, hpk,
          PushBack_mkVec_full]
      · intro _
        by_cases h0 : xs.length = 0
        · exact ⟨0, by simp [h0]⟩
        · obtain ⟨j, hj⟩ := hpow (by omega)
          refine ⟨j + 1, ?_⟩
          rw [pow_succ, if_neg h0]
          simp only [List.length_append, List.length_singleton]
          omega
    | succ r =>
      have hk1 : 1 ≤ k := by
        rcases Nat.eq_zero_or_pos k with h | h
        · exact absurd (hz h) (by simp)
        · exact h
      refine ⟨xs ++ [k + 1], r, ?_, by simp [hlen], by omega, ?_⟩
      · rw [show pushSeq (k + 1) = (pushSeq k).PushBack (k + 1) from rfl, hpk,
          PushBack_mkVec_spare]
      · intro _
        obtain ⟨j, hj⟩ := hpow hk1
        refine ⟨j, ?_⟩
        simp only [List.length_append, List.length_singleton]
        omega

/-- Claim C4: pushing onto a full canonical vector yields capacity
`max(1, size*2)`; a push never shrinks capacity; pushing `k` elements onto a
default-constructed vector gives size `k` and a power-of-two capacity; pushing
`1,…,5` gives the size/capacity pairs `(1,1),(2,2),(3,4),(4,4),(5,8)`. -/
theorem c4_pushBack_capacity_doubling :
    (∀ (β : Type) (xs : List β) (y : β),
        ((mkVec xs 0).PushBack y).Capacity = max 1 (2 * xs.length))
    ∧ (∀ (β : Type) (xs : List β) (k : Nat) (y : β),
        (mkVec xs k).Capacity ≤ ((mkVec xs k).PushBack y).Capacity)
    ∧ (∀ k : Nat, (pushSeq k).Size = k)
    ∧ (∀ k : Nat, 1 ≤ k → ∃ j : Nat, (pushSeq k).Capacity = 2 ^ j)
    ∧ ((pushSeq 1).Size = 1 ∧ (pushSeq 1).Capacity = 1)
    ∧ ((pushSeq 2).Size = 2 ∧ (pushSeq 2).Capacity = 2)
    ∧ ((pushSeq 3).Size = 3 ∧ (pushSeq 3).Capacity = 4)
    ∧ ((pushSeq 4).Size = 4 ∧ (pushSeq 4).Capacity = 4)
    ∧ ((pushSeq 5).Size = 5 ∧ (pushSeq 5).Capacity = 8) := by
  refine ⟨?_, ?_, ?_, ?_, by decide, by decide, by decide, by decide, by decide⟩
  · intro β xs y
    rw [PushBack_mkVec_full, Capacity_mkVec]
    by_cases h0 : xs.length = 0
    · simp [h0]
    · rw [Nat.max_eq_right (by omega : (1 : ℕ) ≤ 2 * xs.length), if_neg h0]
      simp only [List.length_append, List.length_singleton]
      omega
  · intro β xs k y
    cases k with
    | zero =>
      rw [PushBack_mkVec_full, Capacity_mkVec, Capacity_mkVec]
      by_cases h0 : xs.length = 0
      · simp [h0]
      · rw [if_neg h0]
        simp only [List.length_append, List.length_singleton]
        omega
    | succ r =>
      rw [PushBack_mkVec_spare, Capacity_mkVec, Capacity_mkVec]
      simp only [List.length_append, List.length_singleton]
      omega
  · intro k
    obtain ⟨xs, e, hpk, hlen, _, _⟩ := pushSeq_shape k
    rw [hpk, Size_mkVec, hlen]
  · intro k hk
    obtain ⟨xs, e, hpk, _, _, hpow⟩ := pushSeq_shape k
    rw [hpk, Capacity_mkVec]
    exact hpow hk

/-- Witness for C3 at a concrete input: a full one-element vector, with the
new element's constructor throwing. -/
theorem c3_emplaceBack_growth_ctor_throw_strong_witness :
    ((mkVec ([5] : List ℕ) 0).size_ = (mkVec ([5] : List ℕ) 0).data_.Capacity)
    ∧ Vector.EmplaceBack (Except.error CErr.thrown) (mkVec ([5] : List ℕ) 0)
        = (mkVec ([5] : List ℕ) 0, Except.error CErr.thrown) :=
  ⟨rfl, c3_emplaceBack_growth_ctor_throw_strong (mkVec [5] 0) CErr.thrown rfl⟩

/-- Witness for C4 at a concrete input: after five pushes the capacity is a
power of two. -/
theorem c4_pushBack_capacity_doubling_witness :
    1 ≤ 5 ∧ ∃ j : Nat, (pushSeq 5).Capacity = 2 ^ j :=
  ⟨by decide, c4_pushBack_capacity_doubling.2.2.2.1 5 (by decide)⟩

/-- Claim C2 counterexample: RawMemory move assignment does not leave the
source empty.  Moving a capacity-3 block into a manager that holds a
capacity-2 block leaves the source with capacity 2, not 0 (the operator swaps
the two buffers). -/
theorem c2_raw_move_assign_counterexample :
    ¬ ((RawMemory.moveAssign (RawMemory.Allocate 2 : RawMemory ℕ)
        (RawMemory.Allocate 3)).2.Capacity = 0) := by
  decide

/-- Claim C2 as amended: RawMemory move assignment swaps the two managers'
buffers and capacities — the target receives the source's region and capacity,
the source receives the target's former region and capacity, and so ends empty
exactly when the target was empty; move construction transfers the region and
capacity and leaves the moved-from source empty (capacity 0, no handle). -/
theorem c2_raw_move_semantics (a b : RawMemory α) :
    RawMemory.moveAssign a b = (⟨b.buffer_⟩, ⟨a.buffer_⟩)
    ∧ (RawMemory.moveAssign a b).1.Capacity = b.Capacity
    ∧ (RawMemory.moveAssign a b).2.Capacity = a.Capacity
    ∧ ((RawMemory.moveAssign a b).2.Capacity = 0 ↔ a.Capacity = 0)
    ∧ (RawMemory.moveCtor b).1 = ⟨b.buffer_⟩
    ∧ (RawMemory.moveCtor b).2.Capacity = 0
    ∧ (RawMemory.moveCtor b).2.hasHandle = false :=
  ⟨rfl, rfl, rfl, Iff.rfl, rfl, rfl, rfl⟩

/-- Claim C6, evaluated at the failing input: after move-assigning an empty
vector into a one-element vector, the target has taken the source's (empty)
storage and size and the source's size is 0, but the target's former element 7
is still live in the buffer now held by the source, beyond its size, and even
running the source's destructor (which destroys only `[0, size_)`) leaves it
constructed — the target's old resources are never discarded. -/
theorem c6_move_assign_leak_eval :
    (Vector.moveAssignOp (mkVec ([7] : List ℕ) 0) (mkVec ([] : List ℕ) 0)).1
        = mkVec ([] : List ℕ) 0
    ∧ (Vector.moveAssignOp (mkVec ([7] : List ℕ) 0) (mkVec ([] : List ℕ) 0)).2.size_ = 0
    ∧ (Vector.moveAssignOp (mkVec ([7] : List ℕ) 0) (mkVec ([] : List ℕ) 0)).2.data_.get 0
        = .ok 7
    ∧ Vector.destructor
        (Vector.moveAssignOp (mkVec ([7] : List ℕ) 0) (mkVec ([] : List ℕ) 0)).2
        = .ok ⟨[some 7]⟩ :=
  ⟨rfl, rfl, rfl, rfl⟩

/-- Claim C1, evaluated at failing inputs inside the claimed precondition
`pos ∈ [0, size]`: inserting at `pos = size` into a vector `[10]` with one
spare slot runs `std::move_backward(begin() + 1, begin() + 0, begin() + 1)` —
`first` past `last`, UB; and inserting at `pos = 0` into an empty vector with
spare capacity reads `data_[size_ - 1]` with `size_ = 0`, whose index
underflows in `size_t` (the capacity assert fails).  The claim says both calls
insert the element and return a vector grown by one. -/
theorem c1_emplace_eval :
    Vector.Emplace (mkVec ([10] : List ℕ) 1) 1 42 = .error .ub
    ∧ Vector.Emplace (mkVec ([] : List ℕ) 1) 0 42 = .error .ub :=
  ⟨rfl, rfl⟩

/-- Claim C10: the rvalue `Insert` overload forwards its named (hence lvalue)
parameter to `Emplace` exactly as the const-reference overload does, so both
produce the same result, the element is copy-constructed from the argument,
and the argument is not moved from (the caller's object is intact). -/
theorem c10_insert_overloads_agree (v : Vector α) (pos : Nat) (x : α) :
    Vector.InsertRval v pos x = Vector.InsertLval v pos x
    ∧ (Vector.InsertRval v pos x).2 = some x :=
  ⟨rfl, rfl⟩

/-- `Vector(size_t)` on a canonical view: exactly `n` slots, all constructed
with the default value. -/
theorem sizedCtor_ok (β : Type) [Inhabited β] (n : Nat) :
    Vector.sizedCtor (α := β) n = .ok (mkVec (List.replicate n (default : β)) 0) := by
  have h1 := uninitializedValueConstructN_ok (α := β) n [] []
  simp only [List.nil_append, List.append_nil, List.length_nil] at h1
  show (uninitializedValueConstructN (⟨List.replicate n none⟩ : RawMemory β) 0 n
      >>= fun d => Except.ok (⟨d, n⟩ : Vector β))
    = Except.ok (mkVec (List.replicate n (default : β)) 0)
  rw [h1, res_bind_ok]
  have hmk : mkVec (List.replicate n (default : β)) 0
      = ⟨⟨(List.replicate n (default : β)).map some⟩, n⟩ := by
    simp [mkVec, cslots]
  rw [hmk]

/-- Claim C8: for all `n`, the sized constructor yields size `n`, capacity
exactly `n`, and every element equal to the type's default value; for `n = 3`
over the integers this is size 3, capacity 3, values `[0,0,0]`. -/
theorem c8_sized_ctor :
    (∀ (β : Type) [Inhabited β] (n : Nat),
        Vector.sizedCtor (α := β) n = .ok (mkVec (List.replicate n (default : β)) 0)
        ∧ (mkVec (List.replicate n (default : β)) 0).Size = n
        ∧ (mkVec (List.replicate n (default : β)) 0).Capacity = n)
    ∧ Vector.sizedCtor (α := ℤ) 3 = .ok (mkVec ([0, 0, 0] : List ℤ) 0) := by
  constructor
  · intro β _ n
    refine ⟨sizedCtor_ok β n, ?_, ?_⟩
    · rw [Size_mkVec, List.length_replicate]
    · rw [Capacity_mkVec, List.length_replicate]
      omega
  · decide

/-- `Reserve` on a canonical view: no-op unless the request exceeds the
capacity, in which case exactly the requested number of slots is allocated
and the elements are relocated. -/
theorem Reserve_mkVec (xs : List α) (k n : Nat) :
    Vector.Reserve (mkVec xs k) n
      = .ok (if n ≤ xs.length + k then mkVec xs k else mkVec xs (n - xs.length)) := by
  have hcap : (mkVec xs k).data_.Capacity = xs.length + k := by
    simp [mkVec, cslots, RawMemory.Capacity]
  unfold Vector.Reserve
  rw [hcap]
  by_cases hn : n ≤ xs.length + k
  · rw [if_pos hn, if_pos hn]
  · rw [if_neg hn, if_neg hn]
    have hL : xs.length ≤ n := by omega
    have hAlloc : (RawMemory.Allocate n : RawMemory α)
        = ⟨List.replicate xs.length none ++ List.replicate (n - xs.length) none⟩ := by
      rw [RawMemory.Allocate, ← List.replicate_add,
        show xs.length + (n - xs.length) = n from by omega]
    have hcm := CopyOrMove_full xs (List.replicate k none)
      (List.replicate (n - xs.length) none) (mkVec xs k).data_
      ⟨List.replicate xs.length none ++ List.replicate (n - xs.length) none⟩ rfl rfl
    show (CopyOrMove (mkVec xs k).data_ 0 xs.length (RawMemory.Allocate n) 0
        >>= fun p => Except.ok (⟨p.2, xs.length⟩ : Vector α))
      = Except.ok (mkVec xs (n - xs.length))
    rw [hAlloc, hcm, res_bind_ok]
    rfl

theorem destroyN_tail (xs : List α) (k n : Nat) (h : n ≤ xs.length) :
    destroyN (⟨cslots xs k⟩ : RawMemory α) n (xs.length - n)
      = .ok ⟨cslots (xs.take n) (xs.length - n + k)⟩ := by
  have hd := destroyN_ok (xs.length - n) (xs.drop n) ((xs.take n).map some)
    (List.replicate k none) (by simp)
  have hlen : ((xs.take n).map some).length = n := by
    simp [List.length_take]
    omega
  rw [hlen] at hd
  have hbuf : (cslots xs k : List (Option α))
      = (xs.take n).map some ++ (xs.drop n).map some ++ List.replicate k none := by
    rw [cslots, show (xs.take n).map some ++ (xs.drop n).map some = xs.map some from by
      rw [← List.map_append, List.take_append_drop]]
  rw [show (⟨cslots xs k⟩ : RawMemory α)
      = ⟨(xs.take n).map some ++ (xs.drop n).map some ++ List.replicate k none⟩ from by
    rw [hbuf], hd]
  congr 1
  rw [cslots, show List.replicate (xs.length - n + k) (none : Option α)
      = List.replicate (xs.length - n) none ++ List.replicate k none from by
    rw [← List.replicate_add], List.append_assoc]

theorem uVCN_tail [Inhabited α] (xs : List α) (k n : Nat) (h : n ≤ k) :
    uninitializedValueConstructN (⟨cslots xs k⟩ : RawMemory α) xs.length n
      = .ok ⟨cslots (xs ++ List.replicate n (default : α)) (k - n)⟩ := by
  have hv := uninitializedValueConstructN_ok n (xs.map some) (List.replicate (k - n) none)
  rw [List.length_map] at hv
  have hbuf : (cslots xs k : List (Option α))
      = xs.map some ++ List.replicate n none ++ List.replicate (k - n) none := by
    rw [cslots, show List.replicate k (none : Option α)
        = List.replicate n none ++ List.replicate (k - n) none from by
      rw [← List.replicate_add]; congr 1; omega, List.append_assoc]
  rw [show (⟨cslots xs k⟩ : RawMemory α)
      = ⟨xs.map some ++ List.replicate n none ++ List.replicate (k - n) none⟩ from by
    rw [hbuf], hv]
  congr 1
  rw [cslots, List.map_append]

/-- Claim C9: `Resize` is a no-op at the current size; shrinking destroys
exactly the slots `[newSize, oldSize)`, keeps the prefix and the capacity;
growing reserves capacity at least `newSize` and value-constructs the tail
`[oldSize, newSize)` with default values. -/
theorem c9_resize_semantics (β : Type) [Inhabited β] (xs : List β) (k n : Nat) :
    (n = xs.length → Vector.Resize (mkVec xs k) n = .ok (mkVec xs k))
    ∧ (n < xs.length →
        Vector.Resize (mkVec xs k) n = .ok (mkVec (xs.take n) (xs.length - n + k))
        ∧ (mkVec (xs.take n) (xs.length - n + k)).Capacity = (mkVec xs k).Capacity)
    ∧ (xs.length < n →
        Vector.Resize (mkVec xs k) n
          = .ok (mkVec (xs ++ List.replicate (n - xs.length) (default : β))
              (max (xs.length + k) n - n))
        ∧ n ≤ (mkVec (xs ++ List.replicate (n - xs.length) (default : β))
              (max (xs.length + k) n - n)).Capacity) := by
  refine ⟨?_, ?_, ?_⟩
  · intro h
    unfold Vector.Resize
    rw [if_pos (show (mkVec xs k).size_ = n from h.symm)]
  · intro h
    have hlen : (xs.take n).length = n := by
      rw [List.length_take]
      omega
    constructor
    · unfold Vector.Resize
      rw [if_neg (show ¬ ((mkVec xs k).size_ = n) from by simp [mkVec]; omega),
        if_neg (show ¬ ((mkVec xs k).size_ < n) from by simp [mkVec]; omega)]
      show (destroyN (⟨cslots xs k⟩ : RawMemory β) n (xs.length - n)
          >>= fun d => Except.ok (⟨d, n⟩ : Vector β))
        = Except.ok (mkVec (xs.take n) (xs.length - n + k))
      rw [destroyN_tail xs k n (Nat.le_of_lt h), res_bind_ok]
      have hmk : mkVec (xs.take n) (xs.length - n + k)
          = ⟨⟨cslots (xs.take n) (xs.length - n + k)⟩, n⟩ := by
        unfold mkVec
        rw [hlen]
      rw [hmk]
    · rw [Capacity_mkVec, Capacity_mkVec, hlen]
      omega
  · intro h
    have hsz : (xs ++ List.replicate (n - xs.length) (default : β)).length = n := by
      simp
      omega
    constructor
    · unfold Vector.Resize
      rw [if_neg (show ¬ ((mkVec xs k).size_ = n) from by simp [mkVec]; omega),
        if_pos (show (mkVec xs k).size_ < n from by simp [mkVec]; omega)]
      show (Vector.Reserve (mkVec xs k) n >>= fun v =>
          uninitializedValueConstructN v.data_ v.size_ (n - v.size_)
            >>= fun d => Except.ok (⟨d, n⟩ : Vector β))
        = Except.ok (mkVec (xs ++ List.replicate (n - xs.length) (default : β))
            (max (xs.length + k) n - n))
      rw [Reserve_mkVec]
      by_cases hnk : n ≤ xs.length + k
      · rw [if_pos hnk, res_bind_ok]
        show (uninitializedValueConstructN (⟨cslots xs k⟩ : RawMemory β) xs.length
            (n - xs.length) >>= fun d => Except.ok (⟨d, n⟩ : Vector β)) = _
        rw [uVCN_tail xs k (n - xs.length) (by omega), res_bind_ok]
        have hmk : mkVec (xs ++ List.replicate (n - xs.length) (default : β))
            (max (xs.length + k) n - n)
            = ⟨⟨cslots (xs ++ List.replicate (n - xs.length) (default : β))
                (k - (n - xs.length))⟩, n⟩ := by
          unfold mkVec
          rw [hsz, show max (xs.length + k) n - n = k - (n - xs.length) from by omega]
        rw [hmk]
      · rw [if_neg hnk, res_bind_ok]
        show (uninitializedValueConstructN (⟨cslots xs (n - xs.length)⟩ : RawMemory β)
            xs.length (n - xs.length) >>= fun d => Except.ok (⟨d, n⟩ : Vector β)) = _
        rw [uVCN_tail xs (n - xs.length) (n - xs.length) (Nat.le_refl _), res_bind_ok]
        have hmk : mkVec (xs ++ List.replicate (n - xs.length) (default : β))
            (max (xs.length + k) n - n)
            = ⟨⟨cslots (xs ++ List.replicate (n - xs.length) (default : β))
                (n - xs.length - (n - xs.length))⟩, n⟩ := by
          unfold mkVec
          rw [hsz, show max (xs.length + k) n - n = n - xs.length - (n - xs.length) from by
            omega]
        rw [hmk]
    · rw [Capacity_mkVec, hsz]
      omega
/-- Witness for C9 at a concrete input: shrinking `[1,2,3]` (capacity 3) to
size 1 keeps `[1]`, destroys two slots, and keeps capacity 3. -/
theorem c9_resize_semantics_witness :
    (1 < 3) ∧ Vector.Resize (mkVec ([1, 2, 3] : List ℕ) 0) 1 = .ok (mkVec [1] 2) :=
  ⟨by decide, ((c9_resize_semantics ℕ [1, 2, 3] 0 1).2.1 (by decide)).1⟩

/-- Claim C7: for every vector and position `i < size`, `Erase(i)` removes
exactly the element at `i`: later elements are shifted one slot left (in
order, by move assignment), the freed last slot is destroyed, the size drops
by exactly one, the capacity and the elements before `i` are unchanged. -/
theorem c7_erase_shifts_left (xs : List α) (k i : Nat) (h : i < xs.length) :
    Vector.Erase (mkVec xs k) i = .ok (mkVec (xs.take i ++ xs.drop (i + 1)) (k + 1)) := by
  show (moveRange (⟨cslots xs k⟩ : RawMemory α) (i + 1) xs.length i >>= fun d =>
      RawMemory.destroyAt d (sizeTPred xs.length) >>= fun d =>
      Except.ok (⟨d, xs.length - 1⟩ : Vector α))
    = .ok (mkVec (xs.take i ++ xs.drop (i + 1)) (k + 1))
  rw [moveRange, if_neg (by omega)]
  have hmv := moveN_shift (xs.length - (i + 1)) i xs (List.replicate k none) (by omega)
  rw [show (⟨cslots xs k⟩ : RawMemory α) = ⟨xs.map some ++ List.replicate k none⟩ from rfl,
    hmv, res_bind_ok]
  have h1 : (xs.drop (i + 1)).take (xs.length - (i + 1)) = xs.drop (i + 1) := by
    have hl : (xs.drop (i + 1)).length = xs.length - (i + 1) := by simp
    rw [← hl, List.take_length]
  have h2 : i + (xs.length - (i + 1)) = xs.length - 1 := by omega
  have h3 : xs.drop (xs.length - 1) = [xs[xs.length - 1]] := by
    rw [List.drop_eq_getElem_cons (by omega : xs.length - 1 < xs.length),
      show xs.length - 1 + 1 = xs.length from by omega, List.drop_length]
  rw [h1, h2, h3]
  rw [sizeTPred, if_neg (by omega : ¬ (xs.length = 0))]
  have hsh : ((xs.take i ++ xs.drop (i + 1) ++ [xs[xs.length - 1]]).map some
        ++ List.replicate k none : List (Option α))
      = (xs.take i ++ xs.drop (i + 1)).map some
        ++ some xs[xs.length - 1] :: List.replicate k none := by
    simp
  have hda := destroyAt_at ((xs.take i ++ xs.drop (i + 1)).map some) xs[xs.length - 1]
    (List.replicate k none)
  have hlenA : ((xs.take i ++ xs.drop (i + 1)).map some).length = xs.length - 1 := by
    simp
    omega
  rw [hlenA] at hda
  rw [show (⟨(xs.take i ++ xs.drop (i + 1) ++ [xs[xs.length - 1]]).map some
        ++ List.replicate k none⟩ : RawMemory α)
      = ⟨(xs.take i ++ xs.drop (i + 1)).map some
        ++ some xs[xs.length - 1] :: List.replicate k none⟩ from by rw [hsh],
    hda, res_bind_ok]
  have hmk : mkVec (xs.take i ++ xs.drop (i + 1)) (k + 1)
      = ⟨⟨(xs.take i ++ xs.drop (i + 1)).map some ++ none :: List.replicate k none⟩,
          xs.length - 1⟩ := by
    unfold mkVec
    rw [show (cslots (xs.take i ++ xs.drop (i + 1)) (k + 1) : List (Option α))
        = (xs.take i ++ xs.drop (i + 1)).map some ++ none :: List.replicate k none from by
      rw [cslots, List.replicate_succ],
      show (xs.take i ++ xs.drop (i + 1)).length = xs.length - 1 from by simp; omega]
  rw [hmk]

/-- Witness for C7 at a concrete input: erasing index 1 from `[10,20,30]`
yields `[10,30]` with size 2 and capacity 3. -/
theorem c7_erase_shifts_left_witness :
    (1 < 3) ∧ Vector.Erase (mkVec ([10, 20, 30] : List ℕ) 0) 1 = .ok (mkVec [10, 30] 1) :=
  ⟨by decide, c7_erase_shifts_left [10, 20, 30] 0 1 (by decide)⟩

theorem copyCtor_ok (c : α → Res α) (hc : ∀ a, c a = .ok a) (ys : List α) (m : Nat) :
    Vector.copyCtor c (mkVec ys m) = .ok (mkVec ys 0) := by
  have h1 := uninitializedCopyN_ok c hc ys.length 0 ys (List.replicate m none) [] [] (by simp)
  simp only [List.nil_append, List.append_nil, List.length_nil, List.drop_zero,
    List.take_length] at h1
  show (uninitializedCopyN c (⟨ys.map some ++ List.replicate m none⟩ : RawMemory α) 0
      ⟨List.replicate ys.length none⟩ 0 ys.length >>= fun d =>
      Except.ok (⟨d, ys.length⟩ : Vector α)) = Except.ok (mkVec ys 0)
  rw [h1, res_bind_ok]
  rw [show mkVec ys 0 = ⟨⟨ys.map some⟩, ys.length⟩ from by simp [mkVec, cslots]]

theorem copyAssign_grow (c : α → Res α) (hc : ∀ a, c a = .ok a)
    (xs ys : List α) (k m : Nat) (hgt : ys.length > xs.length + k) :
    Vector.copyAssign c (mkVec ys m) (mkVec xs k) = (mkVec ys 0, .ok ()) := by
  have hcond : (mkVec ys m).size_ > (mkVec xs k).data_.Capacity := by
    simp only [mkVec, cslots, RawMemory.Capacity, List.length_append, List.length_map,
      List.length_replicate]
    omega
  unfold Vector.copyAssign
  rw [EM_bind_getS, if_pos hcond, copyCtor_ok c hc ys m, EM_bind_liftR_ok, setS_apply]

theorem copyAssign_throw (c : α → Res α) (xs ys : List α) (k m : Nat) (e : CErr)
    (hgt : ys.length > xs.length + k)
    (hctor : Vector.copyCtor c (mkVec ys m) = .error e) :
    Vector.copyAssign c (mkVec ys m) (mkVec xs k) = (mkVec xs k, .error e) := by
  have hcond : (mkVec ys m).size_ > (mkVec xs k).data_.Capacity := by
    simp only [mkVec, cslots, RawMemory.Capacity, List.length_append, List.length_map,
      List.length_replicate]
    omega
  unfold Vector.copyAssign
  rw [EM_bind_getS, if_pos hcond, hctor, EM_bind_liftR_err]

theorem copyAssign_fits (xs ys : List α) (k m : Nat) (hle : ys.length ≤ xs.length + k) :
    Vector.copyAssign (fun a => .ok a) (mkVec ys m) (mkVec xs k)
      = (mkVec ys (xs.length + k - ys.length), .ok ()) := by
  have hcond : ¬ ((mkVec ys m).size_ > (mkVec xs k).data_.Capacity) := by
    simp only [mkVec, cslots, RawMemory.Capacity, List.length_append, List.length_map,
      List.length_replicate]
    omega
  unfold Vector.copyAssign
  rw [EM_bind_getS, if_neg hcond]
  simp only [show (mkVec xs k).size_ = xs.length from rfl,
    show (mkVec ys m).size_ = ys.length from rfl,
    show (mkVec xs k).data_ = (⟨xs.map some ++ List.replicate k none⟩ : RawMemory α) from rfl,
    show (mkVec ys m).data_ = (⟨ys.map some ++ List.replicate m none⟩ : RawMemory α) from rfl]
  by_cases hlt : ys.length < xs.length
  · rw [if_pos hlt]
    have hdt := destroyN_tail xs k ys.length (by omega)
    simp only [cslots] at hdt
    rw [hdt, EM_bind_liftR_ok, EM_bind_setS]
    rw [show xs.length ⊓ ys.length = ys.length from by omega]
    have ha := assignFromN_ok (fun a => .ok a) (fun a => rfl) ys.length 0 ys
      (xs.take ys.length) (List.replicate m none)
      (List.replicate (xs.length - ys.length + k) none) (by omega)
      (by simp [List.length_take]; omega)
    have hdrop : (xs.take ys.length).drop ys.length = [] :=
      List.drop_eq_nil_of_le (by simp [List.length_take])
    simp only [List.take_zero, List.drop_zero, List.nil_append, List.take_length,
      Nat.zero_add, hdrop, List.append_nil] at ha
    rw [ha, EM_bind_liftR_ok, EM_bind_setS]
    rw [if_neg (by omega : ¬ (xs.length < ys.length)), EM_bind_liftR_ok, setS_apply]
    rw [show xs.length + k - ys.length = xs.length - ys.length + k from by omega]
    rfl
  · rw [if_neg hlt, EM_bind_liftR_ok, EM_bind_setS]
    rw [show xs.length ⊓ ys.length = xs.length from by omega]
    have ha := assignFromN_ok (fun a => .ok a) (fun a => rfl) xs.length 0 ys xs
      (List.replicate m none) (List.replicate k none) (by omega) (by omega)
    simp only [List.take_zero, List.drop_zero, List.nil_append, Nat.zero_add,
      List.drop_length, List.append_nil] at ha
    rw [ha, EM_bind_liftR_ok, EM_bind_setS]
    by_cases heq : xs.length < ys.length
    · rw [if_pos heq]
      have hsplit : (List.replicate k (none : Option α))
          = List.replicate (ys.length - xs.length) none
            ++ List.replicate (k - (ys.length - xs.length)) none := by
        rw [← List.replicate_add]
        congr 1
        omega
      have hu := uninitializedCopyN_ok (fun a => .ok a) (fun a => rfl)
        (ys.length - xs.length) xs.length ys (List.replicate m none)
        ((ys.take xs.length).map some)
        (List.replicate (k - (ys.length - xs.length)) none) (by omega)
      rw [show ((ys.take xs.length).map some).length = xs.length from by
        simp [List.length_take]; omega] at hu
      have hdst : ((ys.take xs.length).map some ++ List.replicate k none
            : List (Option α))
          = (ys.take xs.length).map some
            ++ List.replicate (ys.length - xs.length) none
            ++ List.replicate (k - (ys.length - xs.length)) none := by
        rw [hsplit, List.append_assoc]
      rw [show (⟨(ys.take xs.length).map some ++ List.replicate k none⟩ : RawMemory α)
          = ⟨(ys.take xs.length).map some
              ++ List.replicate (ys.length - xs.length) none
              ++ List.replicate (k - (ys.length - xs.length)) none⟩ from by rw [hdst],
        hu, EM_bind_liftR_ok, setS_apply]
      have htd : (ys.drop xs.length).take (ys.length - xs.length) = ys.drop xs.length := by
        have hl : (ys.drop xs.length).length = ys.length - xs.length := by simp
        rw [← hl, List.take_length]
      rw [htd,
        show (List.map some (ys.take xs.length) ++ List.map some (ys.drop xs.length)
            : List (Option α)) = List.map some ys from by
          rw [← List.map_append, List.take_append_drop],
        show k - (ys.length - xs.length) = xs.length + k - ys.length from by omega]
      rfl
    · rw [if_neg heq, EM_bind_liftR_ok, setS_apply]
      rw [show xs.length = ys.length from by omega, List.take_length]
      rw [show mkVec ys (ys.length + k - ys.length)
          = ⟨⟨ys.map some ++ List.replicate (ys.length + k - ys.length) none⟩,
              ys.length⟩ from rfl,
        show ys.length + k - ys.length = k from by omega]

/-- Claim C5: copy assignment chooses between two policies.  When the source's
size exceeds the target's capacity it builds a full temporary copy and swaps it
in — the result equals the source with capacity exactly the source's size, and
if the element copy throws while the temporary is built the target is
unchanged (strong guarantee).  Otherwise it destroys excess trailing elements,
copy-assigns the overlap, copy-constructs the remaining tail, updates the size
last, and the result equals the source with the target's capacity kept.  In
particular copy-assigning a 5-element array into a 2-element, capacity-2 array
takes the copy-and-swap branch and yields size 5 (capacity 5, the source's
size). -/
theorem c5_copy_assign_policies :
    (∀ (β : Type) (xs ys : List β) (k m : Nat),
       (ys.length > xs.length + k →
          Vector.copyAssign (fun a => .ok a) (mkVec ys m) (mkVec xs k)
            = (mkVec ys 0, .ok ()))
       ∧ (ys.length ≤ xs.length + k →
          Vector.copyAssign (fun a => .ok a) (mkVec ys m) (mkVec xs k)
            = (mkVec ys (xs.length + k - ys.length), .ok ()))
       ∧ (∀ (c : β → Res β) (e : CErr), ys.length > xs.length + k →
            Vector.copyCtor c (mkVec ys m) = .error e →
            Vector.copyAssign c (mkVec ys m) (mkVec xs k) = (mkVec xs k, .error e)))
    ∧ (Vector.copyAssign (fun a => .ok a) (mkVec ([1, 2, 3, 4, 5] : List ℕ) 0)
          (mkVec ([8, 9] : List ℕ) 0) = (mkVec [1, 2, 3, 4, 5] 0, .ok ())
       ∧ (mkVec ([1, 2, 3, 4, 5] : List ℕ) 0).Size = 5
       ∧ (mkVec ([1, 2, 3, 4, 5] : List ℕ) 0).Capacity = 5) := by
  constructor
  · intro β xs ys k m
    exact ⟨fun hgt => copyAssign_grow _ (fun a => rfl) xs ys k m hgt,
           fun hle => copyAssign_fits xs ys k m hle,
           fun c e hgt hctor => copyAssign_throw c xs ys k m e hgt hctor⟩
  · exact ⟨by decide, by decide, by decide⟩

/-- Witness for C5 at a concrete input: the spec's scenario 5 (5 elements into
a capacity-2 target) through the copy-and-swap branch. -/
theorem c5_copy_assign_policies_witness :
    (5 > 2 + 0)
    ∧ Vector.copyAssign (fun a => .ok a) (mkVec ([1, 2, 3, 4, 5] : List ℕ) 0)
        (mkVec ([8, 9] : List ℕ) 0) = (mkVec [1, 2, 3, 4, 5] 0, .ok ()) :=
  ⟨by decide, (c5_copy_assign_policies.1 ℕ [8, 9] [1, 2, 3, 4, 5] 0 0).1 (by decide)⟩

end AdvVec
